import Mathlib

/-!
Verification of the signal-to-exit trading pipeline.

This file gives a shallow embedding, in Lean 4, of the core components of the
trading bot: the rolling volatility window and signal detector
(src/coinbase_feed.py), the thread-safe price cache (src/price_cache.py), the
decimal-exact order sizer (src/clob_client.py, FastClobClient._clean_order_amounts),
position creation (src/position_manager.py, PositionManager.add_position), entry
execution (src/order_executor.py, OrderExecutor.execute_entry), and the phased
exit-retry algorithm (src/position_manager.py, PositionManager.trigger_exit and
PositionManager._exit_sell_loop), together with an interleaving model of the
OPEN to CLOSING race guard.

Modelling conventions:
- Python floats are modelled as rationals (ℚ).  Decimal arithmetic in the order
  sizer is exact in the source and is modelled exactly in integer cents.
- Wall-clock reads (time.time, datetime.now) become explicit time parameters.
- Dictionaries become functions to Option, network clients become explicit
  response values or response oracles (one response per attempt).
- Console printing, sleeping and data logging have no observable effect on the
  values the claims are about and are omitted.
-/

namespace Lab

/-! ### Price cache (src/price_cache.py) -/

/-- Snapshot of bid and ask prices for a token, mirroring PriceSnapshot. -/
structure PriceSnapshot where
  tokenId : String
  bestBid : Option ℚ
  bestAsk : Option ℚ
  timestampMs : ℚ
deriving DecidableEq, Repr

/-- The price cache state: staleness threshold plus the prices dictionary,
modelled as a function from token id to optional snapshot. -/
structure PriceCache where
  staleMs : ℚ
  prices : String → Option PriceSnapshot

/-- PriceCache.update: merge a partial update into the stored snapshot and
stamp it with the current wall-clock time, as the source does under its lock.
A side given as none is carried over from the existing snapshot when one
exists. -/
def PriceCache.update (c : PriceCache) (tokenId : String)
    (bestBid bestAsk : Option ℚ) (nowMs : ℚ) : PriceCache :=
  let merged : Option ℚ × Option ℚ :=
    match c.prices tokenId with
    | some e =>
      (match bestBid with
        | none => e.bestBid
        | some b => some b,
       match bestAsk with
        | none => e.bestAsk
        | some a => some a)
    | none => (bestBid, bestAsk)
  { c with prices := fun t =>
      if t = tokenId then some ⟨tokenId, merged.1, merged.2, nowMs⟩
      else c.prices t }

/-- PriceCache.get: return the stored snapshot unless it is missing or its
age exceeds staleMs. -/
def PriceCache.get (c : PriceCache) (tokenId : String) (nowMs : ℚ) :
    Option PriceSnapshot :=
  match c.prices tokenId with
  | none => none
  | some snapshot =>
    if c.staleMs < nowMs - snapshot.timestampMs then none else some snapshot

/-- PriceCache.get_best_bid. -/
def PriceCache.getBestBid (c : PriceCache) (tokenId : String) (nowMs : ℚ) :
    Option ℚ :=
  match c.get tokenId nowMs with
  | none => none
  | some snapshot => snapshot.bestBid

/-- PriceCache.get_best_ask. -/
def PriceCache.getBestAsk (c : PriceCache) (tokenId : String) (nowMs : ℚ) :
    Option ℚ :=
  match c.get tokenId nowMs with
  | none => none
  | some snapshot => snapshot.bestAsk

/-! ### Rolling window (src/coinbase_feed.py, RollingWindow) -/

/-- Rolling window of (time_ms, price) ticks; the deque is a list whose head
is the oldest entry (the left end of the deque). -/
structure RollingWindow where
  windowMs : ℚ
  data : List (ℚ × ℚ)
deriving DecidableEq, Repr

/-- RollingWindow.add: evict from the front every tick strictly older than
time_ms minus window_ms, then append the new tick at the back. -/
def RollingWindow.add (w : RollingWindow) (timeMs price : ℚ) : RollingWindow :=
  let cutoff := timeMs - w.windowMs
  { w with data := (w.data.dropWhile (fun e => e.1 < cutoff)) ++ [(timeMs, price)] }

/-- RollingWindow.get_pct_change: percentage change from oldest to newest
price, none when fewer than two ticks or the oldest price is nonpositive. -/
def RollingWindow.getPctChange (w : RollingWindow) : Option ℚ :=
  if w.data.length < 2 then none
  else
    match w.data.head?, w.data.getLast? with
    | some oldest, some newest =>
      if oldest.2 ≤ 0 then none else some ((newest.2 - oldest.2) / oldest.2)
    | _, _ => none

/-! ### Volatility signal detector (src/coinbase_feed.py, CoinbaseFeed) -/

/-- Signal direction. -/
inductive Direction
  | up
  | down
deriving DecidableEq, Repr

/-- State of the Coinbase feed signal detector: the rolling window, the
trigger threshold, the cooldown, the time of the last fired signal
(initially 0) and the pause flag.  The signal queue and the stashed
diagnostic snapshot do not influence whether a signal fires and are
omitted. -/
structure CoinbaseFeed where
  window : RollingWindow
  threshold : ℚ
  cooldownMs : ℚ
  lastSignalTime : ℚ
  paused : Bool
deriving DecidableEq, Repr

/-- CoinbaseFeed._check_signal: fire a signal when not paused, the window
percentage change exists, its absolute value reaches the threshold, and the
cooldown since the last fired signal has elapsed.  Firing records the
signal time. -/
def CoinbaseFeed.checkSignal (f : CoinbaseFeed) (currentTimeMs : ℚ) :
    CoinbaseFeed × Option Direction :=
  if f.paused then (f, none)
  else
    match f.window.getPctChange with
    | none => (f, none)
    | some pctChange =>
      if |pctChange| < f.threshold then (f, none)
      else if currentTimeMs - f.lastSignalTime < f.cooldownMs then (f, none)
      else ({ f with lastSignalTime := currentTimeMs },
            some (if 0 < pctChange then Direction.up else Direction.down))

/-- CoinbaseFeed._handle_match for an already-parsed tick: drop nonpositive
prices, add the tick to the window, then check for a signal. -/
def CoinbaseFeed.handleMatch (f : CoinbaseFeed) (timeMs price : ℚ) :
    CoinbaseFeed × Option Direction :=
  if price ≤ 0 then (f, none)
  else
    let f2 := { f with window := f.window.add timeMs price }
    f2.checkSignal timeMs

/-- Process a list of ticks through the detector, collecting the per-tick
signal outcome. -/
def CoinbaseFeed.runTicks (f : CoinbaseFeed) (ticks : List (ℚ × ℚ)) :
    CoinbaseFeed × List (Option Direction) :=
  ticks.foldl
    (fun acc e =>
      let step := acc.1.handleMatch e.1 e.2
      (step.1, acc.2 ++ [step.2]))
    (f, [])

/-! ### Order sizer (src/clob_client.py, FastClobClient._clean_order_amounts)

The source works in exact decimal arithmetic (Decimal quantized to two
places); it is modelled exactly in integer cents.  The callers only ever pass
nonnegative sizes and prices, for which Decimal ROUND_DOWN truncation agrees
with the integer floor used here. -/

/-- Truncation of a rational to two decimal places, in cents. -/
def centsTrunc (x : ℚ) : ℤ := ⌊x * 100⌋

/-- Truncation of a rational down to two decimal places. -/
def trunc2 (x : ℚ) : ℚ := (centsTrunc x : ℚ) / 100

/-- A value has at most two decimal places exactly when one hundred times it
is an integer; this is the condition the source tests with
product == product.quantize(Decimal 0.01). -/
def twoDecimalExact (x : ℚ) : Prop := (x * 100).den = 1

instance (x : ℚ) : Decidable (twoDecimalExact x) := by
  unfold twoDecimalExact
  infer_instance

/-- Inner loop of _clean_order_amounts: starting from the truncated size (in
cents) decrement by one cent while positive, returning the first size whose
product with the price is exact at two decimals. -/
def findValidSize (priceCents : ℕ) : ℕ → Option ℕ
  | 0 => none
  | n + 1 =>
    if (n + 1) * priceCents % 100 = 0 then some (n + 1)
    else findValidSize priceCents n

/-- Outer loop of _clean_order_amounts: try the truncated price, then step
the price down one cent at a time, six price candidates in all, breaking
when the price reaches zero. -/
def cleanLoop (sizeCents : ℕ) : ℕ → ℕ → Option (ℕ × ℕ)
  | 0, _ => none
  | fuel + 1, priceCents =>
    if priceCents = 0 then none
    else
      match findValidSize priceCents sizeCents with
      | some s => some (s, priceCents)
      | none => cleanLoop sizeCents fuel (priceCents - 1)

/-- FastClobClient._clean_order_amounts: truncate both size and price to two
decimals and search for a (size, price) pair whose product is exact at two
decimals; on failure return size zero with the truncated input price. -/
def cleanOrderAmounts (size price : ℚ) : ℚ × ℚ :=
  let sizeCents := (centsTrunc size).toNat
  let priceCents := (centsTrunc price).toNat
  match cleanLoop sizeCents 6 priceCents with
  | some sp => ((sp.1 : ℚ) / 100, (sp.2 : ℚ) / 100)
  | none => (0, trunc2 price)

/-! ### Positions (src/position_manager.py) -/

/-- Position lifecycle status. -/
inductive PositionStatus
  | Open
  | Closing
  | Closed
deriving DecidableEq, Repr

/-- Reason a position exit was triggered. -/
inductive ExitReason
  | takeProfit
  | stopLoss
  | staleBreakeven
  | manual
deriving DecidableEq, Repr

/-- An open trading position, mirroring the Position dataclass.  Times are
rationals (milliseconds or an abstract clock). -/
structure Position where
  id : String
  direction : String
  tokenId : String
  entryPrice : ℚ
  shares : ℚ
  entryTime : ℚ
  takeProfitPrice : ℚ
  stopLossPrice : ℚ
  status : PositionStatus
  exitPrice : Option ℚ
  exitTime : Option ℚ
  exitReason : Option ExitReason
  peakPriceSinceEntry : Option ℚ
  isStale : Bool
  staleSinceMs : Option ℚ
deriving DecidableEq, Repr

/-- Trading configuration values consumed by the embedded components. -/
structure Config where
  takeProfitPct : ℚ
  stopLossPct : ℚ
  positionSize : ℚ
  slippageCents : ℚ
  stalePositionSec : ℚ
  upTokenId : String
  downTokenId : String
deriving DecidableEq, Repr

/-- Python round(x, 2) as used on the prices reaching add_position.  Python
rounds the binary double nearest-even; the decimal halves relevant here
(such as 0.525 from 0.50 times 1.05) are represented by doubles strictly
above the half and round upward, so on these inputs the float behaviour is
round half up, which is what this exact-rational model uses. -/
def pyRound2 (x : ℚ) : ℚ := (⌊x * 100 + 1 / 2⌋ : ℚ) / 100

/-- Stop-loss reference used by add_position: the entry bid when given and
positive (a Python truthiness test), otherwise the entry price. -/
def slReference (entryPrice : ℚ) (entryBid : Option ℚ) : ℚ :=
  match entryBid with
  | some b => if 0 < b then b else entryPrice
  | none => entryPrice

/-- PositionManager.add_position: build a Position with the take-profit price
derived from the entry (ask) price and the stop-loss price from the bid
reference, each rounded to the cent, with minimum-one-tick guards. -/
def addPosition (cfg : Config) (direction tokenId : String)
    (entryPrice shares : ℚ) (entryBid : Option ℚ)
    (positionId : String) (entryTime : ℚ) : Position :=
  let tpRaw := pyRound2 (entryPrice * (1 + cfg.takeProfitPct))
  let slRef := slReference entryPrice entryBid
  let slRaw := pyRound2 (slRef * (1 - cfg.stopLossPct))
  let tp := if tpRaw ≤ entryPrice then pyRound2 (entryPrice + 1 / 100) else tpRaw
  let sl := if slRef ≤ slRaw then pyRound2 (slRef - 1 / 100) else slRaw
  { id := positionId
    direction := direction
    tokenId := tokenId
    entryPrice := entryPrice
    shares := shares
    entryTime := entryTime
    takeProfitPrice := tp
    stopLossPrice := sl
    status := PositionStatus.Open
    exitPrice := none
    exitTime := none
    exitReason := none
    peakPriceSinceEntry := none
    isStale := false
    staleSinceMs := none }

/-! ### Entry execution (src/order_executor.py, OrderExecutor.execute_entry) -/

/-- Result dictionary returned by FastClobClient.place_market_buy after
_parse_order_result: success flag, order id, filled shares (the dict default
0.0 is applied), optional fill price (absent keys become none and default to
the best ask at the read site) and optional error message. -/
structure MarketBuyResult where
  success : Bool
  orderID : Option String
  filled : ℚ
  price : Option ℚ
  errorMsg : Option String
  requested : Option ℚ
deriving DecidableEq, Repr

/-- The OrderResult dataclass (the wall-clock timing fields are omitted). -/
structure OrderResult where
  success : Bool
  direction : String
  requestedAmount : ℚ
  filledShares : ℚ
  fillPrice : ℚ
  position : Option Position
  errorMsg : Option String
  partialFill : Bool
  positionId : Option String
  limitPrice : Option ℚ
  requestedShares : Option ℚ
  orderId : Option String
deriving DecidableEq, Repr

/-- A raised Python exception escaping to the caller. -/
inductive PyError
  | typeError (msg : String)
deriving DecidableEq, Repr

/-- The parameter names accepted by PositionManager.add_position, from its
def line in src/position_manager.py. -/
def addPositionParamNames : List String :=
  ["direction", "token_id", "entry_price", "shares", "entry_bid"]

/-- The keyword arguments OrderExecutor.execute_entry passes to
add_position at src/order_executor.py lines 142 to 149. -/
def executeEntryCallKeywords : List String :=
  ["direction", "token_id", "entry_price", "shares", "entry_bid", "position_id"]

/-- The call into add_position made by execute_entry, with Python call
semantics: a keyword argument not accepted by the callee raises TypeError
before the callee body runs. -/
def callAddPositionFromExecuteEntry (cfg : Config) (direction tokenId : String)
    (entryPrice shares : ℚ) (entryBid : Option ℚ)
    (positionId : String) (t : ℚ) : Except PyError Position :=
  if executeEntryCallKeywords.all (fun k => addPositionParamNames.contains k) then
    Except.ok (addPosition cfg direction tokenId entryPrice shares entryBid positionId t)
  else
    Except.error (PyError.typeError
      "add_position got an unexpected keyword argument position_id")

/-- OrderExecutor.execute_entry with a configured price cache, given the
cached best ask and bid and the order-client response.  The result is either
a returned OrderResult or a Python exception escaping to the caller; there is
no try and except around the position-creation call in the source. -/
def executeEntry (cfg : Config) (direction : String) (dollarAmountArg : Option ℚ)
    (cacheAsk cacheBid : Option ℚ) (clientResult : MarketBuyResult)
    (positionId : String) (nowMs : ℚ) : Except PyError OrderResult :=
  let dollarAmount := dollarAmountArg.getD cfg.positionSize
  let noAsk : OrderResult :=
    { success := false
      direction := direction
      requestedAmount := dollarAmount
      filledShares := 0
      fillPrice := 0
      position := none
      errorMsg := some "No asks available in orderbook"
      partialFill := false
      positionId := none
      limitPrice := none
      requestedShares := none
      orderId := none }
  let tokenId := if direction = "UP" then cfg.upTokenId else cfg.downTokenId
  match cacheAsk with
  | none => Except.ok noAsk
  | some bestAsk =>
    if bestAsk = 0 then Except.ok noAsk
    else
      let limitPrice :=
        if 0 < cfg.slippageCents then min (bestAsk + cfg.slippageCents / 100) (99 / 100)
        else bestAsk
      if clientResult.success then
        let filledShares := clientResult.filled
        let fillPrice := clientResult.price.getD bestAsk
        if 0 < filledShares then
          match callAddPositionFromExecuteEntry cfg direction tokenId fillPrice
              filledShares cacheBid positionId nowMs with
          | Except.error e => Except.error e
          | Except.ok position =>
            Except.ok
              { success := true
                direction := direction
                requestedAmount := dollarAmount
                filledShares := filledShares
                fillPrice := fillPrice
                position := some position
                errorMsg := none
                partialFill := decide (filledShares < dollarAmount / bestAsk * (19 / 20))
                positionId := some positionId
                limitPrice := some limitPrice
                requestedShares := clientResult.requested
                orderId := clientResult.orderID }
        else
          Except.ok
            { success := false
              direction := direction
              requestedAmount := dollarAmount
              filledShares := 0
              fillPrice := 0
              position := none
              errorMsg := some "Order submitted but no fill received"
              partialFill := false
              positionId := some positionId
              limitPrice := some limitPrice
              requestedShares := clientResult.requested
              orderId := clientResult.orderID }
      else
        Except.ok
          { success := false
            direction := direction
            requestedAmount := dollarAmount
            filledShares := 0
            fillPrice := 0
            position := none
            errorMsg := some (clientResult.errorMsg.getD "Unknown error")
            partialFill := false
            positionId := some positionId
            limitPrice := some limitPrice
            requestedShares := clientResult.requested
            orderId := clientResult.orderID }

/-! ### Exit retry loop (src/position_manager.py, _exit_sell_loop and
trigger_exit)

Each loop attempt performs one get_best_bid read and at most one
place_market_sell call; the pair of answers for attempt number i is supplied
by a response oracle at index i. -/

/-- The order-client answers for one sell attempt: the best-bid read, and the
parsed sell result (success flag, filled size with the dict default 0.0
applied, optional fill price defaulting to the submitted bid). -/
structure SellResponse where
  bestBid : Option ℚ
  success : Bool
  filled : ℚ
  price : Option ℚ
deriving Repr

/-- Final state of one run of _exit_sell_loop: remaining shares, accumulated
filled total, accumulated (quantity, price) fills, attempts performed and the
consecutive-failure counter. -/
structure SellLoopOut where
  remaining : ℚ
  totalFilled : ℚ
  fillPrices : List (ℚ × ℚ)
  attempts : ℕ
  consecutiveFailures : ℕ
deriving DecidableEq, Repr

/-- PositionManager._exit_sell_loop.  The fuel argument is the number of
attempts still allowed (max_attempts minus attempts already made); the loop
also stops once remaining is at most 0.01 or the consecutive-failure counter
reaches max_consecutive_failures.  A fill resets the failure counter; a
missing or nonpositive bid, an unsuccessful result, or a zero fill counts as
a failure.  A missing bid is represented as bid zero: the source treats
best_bid None and best_bid at most zero by the same failure branch, and the
bid value is otherwise only used when positive. -/
def exitSellLoop (oracle : ℕ → SellResponse) (maxConsec : ℕ) :
    ℕ → ℕ → ℕ → ℚ → ℚ → List (ℚ × ℚ) → SellLoopOut
  | 0, attempts, cf, remaining, totalFilled, fills =>
    ⟨remaining, totalFilled, fills, attempts, cf⟩
  | fuel + 1, attempts, cf, remaining, totalFilled, fills =>
    if 1 / 100 < remaining ∧ cf < maxConsec then
      let resp := oracle attempts
      let bid := resp.bestBid.getD 0
      if bid ≤ 0 then
        exitSellLoop oracle maxConsec fuel (attempts + 1) (cf + 1)
          remaining totalFilled fills
      else if resp.success then
        if 0 < resp.filled then
          exitSellLoop oracle maxConsec fuel (attempts + 1) 0
            (remaining - resp.filled) (totalFilled + resp.filled)
            (fills ++ [(resp.filled, resp.price.getD bid)])
        else
          exitSellLoop oracle maxConsec fuel (attempts + 1) (cf + 1)
            remaining totalFilled fills
      else
        exitSellLoop oracle maxConsec fuel (attempts + 1) (cf + 1)
          remaining totalFilled fills
    else ⟨remaining, totalFilled, fills, attempts, cf⟩

/-- The order-client behaviour observed by one run of trigger_exit: a
response oracle for each phase, the best-bid read between the phases, the
best-bid read at finalization when nothing filled, and the success flag of
the good-till-cancelled fallback order. -/
structure ExitEnv where
  phase1 : ℕ → SellResponse
  phase2Bid : Option ℚ
  phase2 : ℕ → SellResponse
  finalBid : Option ℚ
  gtcSuccess : Bool

/-- Phase 1 of trigger_exit: the fast loop, 20 attempts, 5 consecutive
failures allowed, starting from the full position size. -/
def triggerPhase1 (env : ExitEnv) (pos : Position) : SellLoopOut :=
  exitSellLoop env.phase1 5 20 0 0 pos.shares 0 []

/-- The best bid fetched after phase 1 (Python best_bid or 0). -/
def triggerBestBid (env : ExitEnv) : ℚ := env.phase2Bid.getD 0

/-- Phase 2 of trigger_exit: run only when more than 0.01 shares remain and
their value at the fetched best bid reaches the 0.05 dollar dust threshold;
15 attempts, 10 consecutive failures allowed, accumulators carried over from
phase 1. -/
def triggerPhase2 (env : ExitEnv) (pos : Position) : Option SellLoopOut :=
  if 1 / 100 < (triggerPhase1 env pos).remaining ∧
      5 / 100 ≤ (triggerPhase1 env pos).remaining * triggerBestBid env then
    some (exitSellLoop env.phase2 10 15 0 0 (triggerPhase1 env pos).remaining
      (triggerPhase1 env pos).totalFilled (triggerPhase1 env pos).fillPrices)
  else none

/-- The accumulator state after both phases. -/
def triggerFin (env : ExitEnv) (pos : Position) : SellLoopOut :=
  (triggerPhase2 env pos).getD (triggerPhase1 env pos)

/-- The good-till-cancelled dust fallback: placed when shares remained after
phase 1, still remain after phase 2 (or phase 2 was skipped), and the fetched
best bid is positive; the order is for the remainder at that best bid. -/
def triggerGtc (env : ExitEnv) (pos : Position) : Option (ℚ × ℚ) :=
  if 1 / 100 < (triggerPhase1 env pos).remaining ∧
      1 / 100 < (triggerFin env pos).remaining ∧ 0 < triggerBestBid env then
    some ((triggerFin env pos).remaining, triggerBestBid env)
  else none

/-- Final exit price: the fill-weighted average over all fills when anything
filled, otherwise the best bid at finalization or zero. -/
def triggerExitPrice (env : ExitEnv) (pos : Position) : ℚ :=
  if 0 < (triggerFin env pos).totalFilled then
    ((triggerFin env pos).fillPrices.foldl (fun a qp => a + qp.1 * qp.2) 0) /
      (triggerFin env pos).totalFilled
  else env.finalBid.getD 0

/-- Final share count: rewritten to the filled total when anything filled. -/
def triggerShares (env : ExitEnv) (pos : Position) : ℚ :=
  if 0 < (triggerFin env pos).totalFilled then (triggerFin env pos).totalFilled
  else pos.shares

/-- The finalized Position written by trigger_exit. -/
def triggerFinalPos (env : ExitEnv) (pos : Position) (reason : ExitReason)
    (nowMs : ℚ) : Position :=
  { pos with
    status := PositionStatus.Closed
    shares := triggerShares env pos
    exitPrice := some (triggerExitPrice env pos)
    exitTime := some nowMs
    exitReason := some reason }

/-- Observable record of one trigger_exit run: whether the body ran, the two
loop outcomes, the dust order placed, and the completion-callback
invocations. -/
structure TriggerLog where
  ran : Bool
  phase1 : Option SellLoopOut
  phase2 : Option SellLoopOut
  gtcPlaced : Option (ℚ × ℚ)
  callbackCalls : List (Position × ExitReason)
deriving DecidableEq, Repr

/-- PositionManager.trigger_exit: return immediately on a CLOSED position,
otherwise run phase 1, conditionally phase 2, the dust fallback, finalize the
position and invoke the completion callback when one is configured. -/
def triggerExit (env : ExitEnv) (pos : Position) (reason : ExitReason)
    (nowMs : ℚ) (hasCallback : Bool) : Position × TriggerLog :=
  if pos.status = PositionStatus.Closed then (pos, ⟨false, none, none, none, []⟩)
  else
    (triggerFinalPos env pos reason nowMs,
      ⟨true, some (triggerPhase1 env pos), triggerPhase2 env pos,
        triggerGtc env pos,
        if hasCallback then [(triggerFinalPos env pos reason nowMs, reason)]
        else []⟩)

/-! ### The OPEN to CLOSING race guard (src/position_manager.py,
_async_trigger_exit and manual_exit)

In the source, every exit trigger performs a check-then-set on the position
status with no intervening await point: _async_trigger_exit does it while
holding the manager's asyncio lock, and manual_exit does it synchronously
inside one event-loop step.  The status is only ever written to CLOSING by
those sections and to CLOSING or CLOSED by the worker running trigger_exit,
never back to OPEN.  An execution is therefore a sequence of atomic events:
compare-and-swap attempts by triggers, and worker completions. -/

/-- An atomic event in the life of one position: a compare-and-swap attempt
carrying the exit reason of its trigger, or the completion of the worker
thread running trigger_exit. -/
inductive ExitEvent
  | cas (reason : ExitReason)
  | finish
deriving DecidableEq, Repr

/-- One atomic step on (status, number of trigger_exit runs started): a
compare-and-swap moves OPEN to CLOSING and starts one run, does nothing from
any other status; a worker completion closes the position. -/
def exitCasStep (st : PositionStatus × ℕ) (e : ExitEvent) :
    PositionStatus × ℕ :=
  match e with
  | ExitEvent.cas _ =>
    if st.1 = PositionStatus.Open then (PositionStatus.Closing, st.2 + 1) else st
  | ExitEvent.finish => (PositionStatus.Closed, st.2)

/-! ## Helper lemmas -/

/-- The half-up cent rounding is strictly above its argument minus half a
cent. -/
theorem pyRound2_gt (x : ℚ) : x - 1 / 200 < pyRound2 x := by
  unfold pyRound2
  have h := Int.sub_one_lt_floor (x * 100 + 1 / 2)
  rw [div_eq_mul_inv]
  linarith

/-- The half-up cent rounding is at most its argument plus half a cent. -/
theorem pyRound2_le (x : ℚ) : pyRound2 x ≤ x + 1 / 200 := by
  unfold pyRound2
  have h := Int.floor_le (x * 100 + 1 / 2)
  rw [div_eq_mul_inv]
  linarith

/-- A successful inner size search returns a positive size whose product
with the price, in cents times cents, is a multiple of one hundred. -/
theorem findValidSize_pos_mod (p : ℕ) :
    ∀ n s, findValidSize p n = some s → 0 < s ∧ s * p % 100 = 0 := by
  intro n
  induction n with
  | zero => intro s h; simp [findValidSize] at h
  | succ k ih =>
    intro s h
    simp only [findValidSize] at h
    split_ifs at h with hm
    · obtain rfl := Option.some.inj h
      exact ⟨Nat.succ_pos k, hm⟩
    · exact ih s h

/-- A successful outer search returns a positive size, a positive price and
an exact product. -/
theorem cleanLoop_pos_mod (s0 : ℕ) :
    ∀ fuel p s q, cleanLoop s0 fuel p = some (s, q) →
      0 < s ∧ 0 < q ∧ s * q % 100 = 0 := by
  intro fuel
  induction fuel with
  | zero => intro p s q h; simp [cleanLoop] at h
  | succ k ih =>
    intro p s q h
    simp only [cleanLoop] at h
    split_ifs at h with hp
    · cases hf : findValidSize p s0 with
      | some s2 =>
        rw [hf] at h
        obtain ⟨rfl, rfl⟩ := Prod.mk.injEq .. ▸ Prod.mk.inj (Option.some.inj h)
        obtain ⟨hs2, hmod⟩ := findValidSize_pos_mod p s0 s hf
        exact ⟨hs2, Nat.pos_of_ne_zero hp, hmod⟩
      | none =>
        rw [hf] at h
        exact ih (p - 1) s q h

/-! ## Claims -/

/-- C5: for every positive size and price, _clean_order_amounts returns
either size zero with the truncated input price, or a positive size whose
product with the returned price is exact at two decimal places; in
particular for size 7.3 and price 0.52 it returns the pair (7.25, 0.52)
whose product 3.77 is two-decimal exact. -/
theorem clean_order_amounts_exact :
    (∀ size price : ℚ, 0 < size → 0 < price →
        ((cleanOrderAmounts size price).1 = 0
            ∧ (cleanOrderAmounts size price).2 = trunc2 price)
        ∨ (0 < (cleanOrderAmounts size price).1
            ∧ twoDecimalExact
                ((cleanOrderAmounts size price).1 * (cleanOrderAmounts size price).2)))
    ∧ cleanOrderAmounts (73 / 10) (13 / 25) = (29 / 4, 13 / 25)
    ∧ twoDecimalExact
        ((cleanOrderAmounts (73 / 10) (13 / 25)).1
          * (cleanOrderAmounts (73 / 10) (13 / 25)).2) := by
  have key : ∀ size price : ℚ, 0 < size → 0 < price →
      ((cleanOrderAmounts size price).1 = 0
          ∧ (cleanOrderAmounts size price).2 = trunc2 price)
      ∨ (0 < (cleanOrderAmounts size price).1
          ∧ twoDecimalExact
              ((cleanOrderAmounts size price).1 * (cleanOrderAmounts size price).2)) := by
    intro size price _ _
    rcases hcl : cleanLoop (centsTrunc size).toNat 6 (centsTrunc price).toNat
      with _ | ⟨s, q⟩
    · left
      simp [cleanOrderAmounts, hcl]
    · right
      obtain ⟨hs, hq, hmod⟩ := cleanLoop_pos_mod _ _ _ _ _ hcl
      obtain ⟨k, hk⟩ := Nat.dvd_of_mod_eq_zero hmod
      have hcast : (s : ℚ) * q = 100 * k := by exact_mod_cast hk
      have hprod : ((s : ℚ) / 100) * ((q : ℚ) / 100) * 100 = (k : ℚ) := by
        rw [div_mul_div_comm, hcast]
        ring
      constructor
      · simp only [cleanOrderAmounts, hcl]
        positivity
      · simp only [cleanOrderAmounts, hcl, twoDecimalExact, hprod]
        exact_mod_cast Rat.den_intCast k
  refine ⟨key, ?_, ?_⟩
  · have h1 : centsTrunc ((73 : ℚ) / 10) = 730 := by norm_num [centsTrunc]
    have h2 : centsTrunc ((13 : ℚ) / 25) = 52 := by norm_num [centsTrunc]
    have h3 : cleanLoop (Int.toNat 730) 6 (Int.toNat 52) = some (725, 52) := by decide
    simp only [cleanOrderAmounts, h1, h2, h3]
    norm_num
  · have h1 : centsTrunc ((73 : ℚ) / 10) = 730 := by norm_num [centsTrunc]
    have h2 : centsTrunc ((13 : ℚ) / 25) = 52 := by norm_num [centsTrunc]
    have h3 : cleanLoop (Int.toNat 730) 6 (Int.toNat 52) = some (725, 52) := by decide
    simp only [cleanOrderAmounts, h1, h2, h3]
    norm_num [twoDecimalExact]

/-- Witness for C5 at size 7.3 and price 0.52 with the hypotheses
discharged. -/
theorem clean_order_amounts_exact_witness :
    ((cleanOrderAmounts (73 / 10) (13 / 25)).1 = 0
        ∧ (cleanOrderAmounts (73 / 10) (13 / 25)).2 = trunc2 (13 / 25))
    ∨ (0 < (cleanOrderAmounts (73 / 10) (13 / 25)).1
        ∧ twoDecimalExact
            ((cleanOrderAmounts (73 / 10) (13 / 25)).1
              * (cleanOrderAmounts (73 / 10) (13 / 25)).2)) :=
  clean_order_amounts_exact.1 (73 / 10) (13 / 25) (by norm_num) (by norm_num)

/-- C8: positions created by add_position always have a take-profit price
strictly above the entry price and a stop-loss price strictly below the
stop-loss reference, and the documented example (entry 0.50, tp 5 percent,
bid 0.49, sl 10 percent) yields take-profit 0.53 and stop-loss 0.44. -/
theorem add_position_tp_sl_guards :
    (∀ (cfg : Config) (dir tok : String) (entry shares : ℚ) (bid : Option ℚ)
        (pid : String) (t : ℚ), 0 < entry →
        entry < (addPosition cfg dir tok entry shares bid pid t).takeProfitPrice
        ∧ (addPosition cfg dir tok entry shares bid pid t).stopLossPrice
            < slReference entry bid)
    ∧ (addPosition ⟨1 / 20, 1 / 10, 10, 2, 5, "u", "d"⟩ "UP" "u" (1 / 2) 20
        (some (49 / 100)) "p1" 0).takeProfitPrice = 53 / 100
    ∧ (addPosition ⟨1 / 20, 1 / 10, 10, 2, 5, "u", "d"⟩ "UP" "u" (1 / 2) 20
        (some (49 / 100)) "p1" 0).stopLossPrice = 44 / 100 := by
  refine ⟨?_, ?_, ?_⟩
  · intro cfg dir tok entry shares bid pid t _
    constructor
    · simp only [addPosition]
      split_ifs with h
      · have := pyRound2_gt (entry + 1 / 100)
        linarith
      · linarith [not_le.mp h]
    · simp only [addPosition]
      split_ifs with h
      · have := pyRound2_le (slReference entry bid - 1 / 100)
        linarith
      · linarith [not_le.mp h]
  · norm_num [addPosition, pyRound2, slReference]
  · norm_num [addPosition, pyRound2, slReference]

/-- Witness for C8 at the documented example input. -/
theorem add_position_tp_sl_guards_witness :
    (1 : ℚ) / 2 < (addPosition ⟨1 / 20, 1 / 10, 10, 2, 5, "u", "d"⟩ "UP" "u"
        (1 / 2) 20 (some (49 / 100)) "p1" 0).takeProfitPrice
    ∧ (addPosition ⟨1 / 20, 1 / 10, 10, 2, 5, "u", "d"⟩ "UP" "u"
        (1 / 2) 20 (some (49 / 100)) "p1" 0).stopLossPrice
        < slReference (1 / 2) (some (49 / 100)) :=
  add_position_tp_sl_guards.1 ⟨1 / 20, 1 / 10, 10, 2, 5, "u", "d"⟩ "UP" "u"
    (1 / 2) 20 (some (49 / 100)) "p1" 0 (by norm_num)

/-- C3 is contradicted by the code: on a successful order with positive
filled shares, execute_entry reaches its add_position call, which passes the
keyword argument position_id that add_position does not accept, so the call
raises TypeError instead of returning an OrderResult.  This theorem
evaluates the embedded execute_entry at such an input. -/
theorem execute_entry_raises_type_error :
    executeEntry ⟨1 / 20, 1 / 10, 10, 2, 5, "utok", "dtok"⟩ "UP" (some 10)
        (some (13 / 25)) (some (1 / 2))
        ⟨true, some "ord1", 19, some (13 / 25), none, some 19⟩ "pid1" 0
      = Except.error (PyError.typeError
          "add_position got an unexpected keyword argument position_id") := by
  have hkw : ∀ (cfg : Config) (d tok : String) (e s : ℚ) (b : Option ℚ)
      (pid : String) (tm : ℚ),
      callAddPositionFromExecuteEntry cfg d tok e s b pid tm
        = Except.error (PyError.typeError
            "add_position got an unexpected keyword argument position_id") := by
    intro cfg d tok e s b pid tm
    unfold callAddPositionFromExecuteEntry
    rw [if_neg]
    decide
  norm_num [executeEntry, hkw]

/-- C4 as stated is false: with window_ms 500, adding a tick at time 2000
and then an out-of-order tick at time 100 leaves both in the window, and the
tick at 100 is 1900 ms older than the maximal timestamp 2000. -/
theorem rolling_window_unordered_counterexample :
    ¬ (∀ e ∈ (((RollingWindow.mk 500 []).add 2000 1).add 100 1).data,
        ∀ e2 ∈ (((RollingWindow.mk 500 []).add 2000 1).add 100 1).data,
          e2.1 - e.1 ≤ (500 : ℚ)) := by
  norm_num [RollingWindow.add, List.dropWhile]

/-- Every tick surviving dropWhile on a time-sorted window is at least the
cutoff. -/
theorem pairwise_dropWhile_ge (c : ℚ) :
    ∀ l : List (ℚ × ℚ), l.Pairwise (fun a b => a.1 ≤ b.1) →
      ∀ e ∈ l.dropWhile (fun x => decide (x.1 < c)), c ≤ e.1 := by
  intro l
  induction l with
  | nil => intro _ e he; simp [List.dropWhile] at he
  | cons x xs ih =>
    intro hp e he
    rw [List.dropWhile_cons] at he
    obtain ⟨hx, hxs⟩ := List.pairwise_cons.mp hp
    split_ifs at he with hc
    · exact ih hxs e he
    · rw [decide_eq_true_eq, not_lt] at hc
      rcases List.mem_cons.mp he with rfl | hmem
      · exact hc
      · exact le_trans hc (hx e hmem)

/-- One add step preserves sortedness, bounds every tick by the new time,
and bounds the age of every tick by the window size, provided the new time
is at least the previous bound. -/
theorem add_invariant (wm t0 t p : ℚ) (data : List (ℚ × ℚ))
    (hwm : 0 ≤ wm) (ht : t0 ≤ t)
    (hsort : data.Pairwise (fun a b => a.1 ≤ b.1))
    (hub : ∀ e ∈ data, e.1 ≤ t0) :
    ((RollingWindow.mk wm data).add t p).data.Pairwise (fun a b => a.1 ≤ b.1)
    ∧ (∀ e ∈ ((RollingWindow.mk wm data).add t p).data, e.1 ≤ t)
    ∧ (∀ e ∈ ((RollingWindow.mk wm data).add t p).data, t - e.1 ≤ wm) := by
  simp only [RollingWindow.add]
  have hsub : ∀ e ∈ data.dropWhile (fun x => decide (x.1 < t - wm)), e ∈ data :=
    fun e he => (List.dropWhile_sublist _).subset he
  have hdwp := pairwise_dropWhile_ge (t - wm) data hsort
  refine ⟨?_, ?_, ?_⟩
  · rw [List.pairwise_append]
    refine ⟨hsort.sublist (List.dropWhile_sublist _), List.pairwise_singleton .., ?_⟩
    intro a ha b hb
    rw [List.mem_singleton] at hb
    subst hb
    exact le_trans (hub a (hsub a ha)) ht
  · intro e he
    rcases List.mem_append.mp he with h1 | h1
    · exact le_trans (hub e (hsub e h1)) ht
    · rw [List.mem_singleton] at h1
      subst h1
      exact le_refl t
  · intro e he
    rcases List.mem_append.mp he with h1 | h1
    · have := hdwp e h1
      linarith
    · rw [List.mem_singleton] at h1
      subst h1
      simpa using hwm

/-- Folding a chronologically chained tick list over add preserves the
window invariants, producing some final time bound. -/
theorem foldAdds_invariant (wm : ℚ) (hwm : 0 ≤ wm) :
    ∀ (ticks data : List (ℚ × ℚ)) (t0 : ℚ),
      List.Chain (fun a b => a.1 ≤ b.1) (t0, 0) ticks →
      data.Pairwise (fun a b => a.1 ≤ b.1) →
      (∀ e ∈ data, e.1 ≤ t0) →
      (∀ e ∈ data, t0 - e.1 ≤ wm) →
      ∃ t1,
        (∀ e ∈ (ticks.foldl (fun w tk => w.add tk.1 tk.2)
            (RollingWindow.mk wm data)).data, e.1 ≤ t1)
        ∧ (∀ e ∈ (ticks.foldl (fun w tk => w.add tk.1 tk.2)
            (RollingWindow.mk wm data)).data, t1 - e.1 ≤ wm) := by
  intro ticks
  induction ticks with
  | nil => intro data t0 _ _ hub hlb; exact ⟨t0, hub, hlb⟩
  | cons tk rest ih =>
    intro data t0 hchain hs hub _
    rw [List.chain_cons] at hchain
    obtain ⟨hle, hchain2⟩ := hchain
    obtain ⟨hs2, hub2, hlb2⟩ := add_invariant wm t0 tk.1 tk.2 data hwm hle hs hub
    have hchain3 : List.Chain (fun a b => a.1 ≤ b.1) (tk.1, 0) rest := by
      cases rest with
      | nil => exact List.Chain.nil
      | cons r rs =>
        rw [List.chain_cons] at hchain2 ⊢
        exact hchain2
    simp only [List.foldl_cons]
    exact ih _ tk.1 hchain3 hs2 hub2 hlb2

/-- C4 amended: for chronologically ordered (non-decreasing timestamp) tick
sequences, after every add the rolling window holds no tick older than
window_ms relative to any other tick, in particular relative to the newest
(maximal) timestamp.  The unrestricted claim over arbitrary timestamp orders
is refuted by rolling_window_unordered_counterexample. -/
theorem rolling_window_monotone_invariant (wm : ℚ) (ticks : List (ℚ × ℚ))
    (hwm : 0 ≤ wm)
    (hmono : ticks.Chain' (fun a b => a.1 ≤ b.1)) :
    ∀ e ∈ (ticks.foldl (fun w tk => w.add tk.1 tk.2)
        (RollingWindow.mk wm [])).data,
      ∀ e2 ∈ (ticks.foldl (fun w tk => w.add tk.1 tk.2)
          (RollingWindow.mk wm [])).data,
        e2.1 - e.1 ≤ wm := by
  cases ticks with
  | nil => intro e he; simp at he
  | cons tk rest =>
    have hchain : List.Chain (fun a b => a.1 ≤ b.1) (tk.1, 0) (tk :: rest) :=
      List.chain_cons.mpr ⟨le_refl tk.1, hmono⟩
    obtain ⟨t1, hub, hlb⟩ := foldAdds_invariant wm hwm (tk :: rest) [] tk.1
      hchain (by simp) (by simp) (by simp)
    intro e he e2 he2
    have h1 := hub e2 he2
    have h2 := hlb e he
    linarith

/-- Witness for the amended C4 on a concrete monotone tick sequence. -/
theorem rolling_window_monotone_invariant_witness :
    (600 : ℚ) - 300 ≤ 500 :=
  rolling_window_monotone_invariant 500 [(0, 100), (300, 101), (600, 102)]
    (by norm_num)
    (by norm_num [List.chain'_cons, List.chain'_singleton])
    (300, 101)
    (by norm_num [RollingWindow.add, List.dropWhile])
    (600, 102)
    (by norm_num [RollingWindow.add, List.dropWhile])

/-- C7: get returns the stored snapshot exactly when its age is at most
stale_ms (never a stale value), and a partial update carrying only one side
merges that side while preserving the previously stored value of the other
side. -/
theorem price_cache_get_and_merge :
    (∀ (c : PriceCache) (tok : String) (now : ℚ) (s : PriceSnapshot),
        c.get tok now = some s
          ↔ c.prices tok = some s ∧ now - s.timestampMs ≤ c.staleMs)
    ∧ (∀ (c : PriceCache) (tok : String) (old : PriceSnapshot) (b t : ℚ),
        c.prices tok = some old →
        (c.update tok (some b) none t).prices tok
          = some ⟨tok, some b, old.bestAsk, t⟩)
    ∧ (∀ (c : PriceCache) (tok : String) (old : PriceSnapshot) (a t : ℚ),
        c.prices tok = some old →
        (c.update tok none (some a) t).prices tok
          = some ⟨tok, old.bestBid, some a, t⟩) := by
  refine ⟨?_, ?_, ?_⟩
  · intro c tok now s
    unfold PriceCache.get
    split
    · rename_i heq
      rw [heq]
      simp
    · rename_i snap heq
      rw [heq]
      by_cases hst : c.staleMs < now - snap.timestampMs
      · rw [if_pos hst]
        constructor
        · intro h
          cases h
        · rintro ⟨hs, hle⟩
          obtain rfl := Option.some.inj hs
          exact absurd hst (not_lt.mpr hle)
      · rw [if_neg hst]
        constructor
        · intro h
          obtain rfl := Option.some.inj h
          exact ⟨rfl, not_lt.mp hst⟩
        · rintro ⟨hs, _⟩
          rw [hs]
  · intro c tok old b t hold
    simp [PriceCache.update, hold]
  · intro c tok old a t hold
    simp [PriceCache.update, hold]

/-- Witness for C7: a bid-only update on a cache holding a full snapshot
keeps the stored ask. -/
theorem price_cache_get_and_merge_witness :
    ((PriceCache.mk 5000 (fun t =>
        if t = "tok" then some ⟨"tok", some (1 / 2), some (11 / 20), 0⟩
        else none)).update "tok" (some (51 / 100)) none 100).prices "tok"
      = some ⟨"tok", some (51 / 100), some (11 / 20), 100⟩ :=
  price_cache_get_and_merge.2.1 _ "tok" ⟨"tok", some (1 / 2), some (11 / 20), 0⟩
    (51 / 100) 100 (by simp)

/-- C10: every update, including a one-sided partial update, stamps the
snapshot with the update time, so the carried-over opposite side is also
aged from that time: a bid stored longer than stale_ms ago is still returned
as fresh by get whenever the ask-only update arrived within stale_ms. -/
theorem price_cache_partial_update_refreshes_age :
    ∀ (c : PriceCache) (tok : String) (old : PriceSnapshot) (a t1 t2 : ℚ),
      c.prices tok = some old →
      c.staleMs < t1 - old.timestampMs →
      t2 - t1 ≤ c.staleMs →
      (c.update tok none (some a) t1).get tok t2
        = some ⟨tok, old.bestBid, some a, t1⟩ := by
  intro c tok old a t1 t2 hold hstale hfresh
  have hupd : (c.update tok none (some a) t1).prices tok
      = some ⟨tok, old.bestBid, some a, t1⟩ := by
    simp [PriceCache.update, hold]
  unfold PriceCache.get
  split
  · rename_i heq
    rw [hupd] at heq
    exact Option.noConfusion heq
  · rename_i snap heq
    rw [hupd] at heq
    obtain rfl := Option.some.inj heq
    rw [if_neg]
    exact not_lt.mpr hfresh

/-- Witness for C10: the bid written at time 0 is still served at time 7000
because an ask-only update arrived at time 6000. -/
theorem price_cache_partial_update_refreshes_age_witness :
    ((PriceCache.mk 5000 (fun t =>
        if t = "tok" then some ⟨"tok", some (1 / 2), some (11 / 20), 0⟩
        else none)).update "tok" none (some (27 / 50)) 6000).get "tok" 7000
      = some ⟨"tok", some (1 / 2), some (27 / 50), 6000⟩ :=
  price_cache_partial_update_refreshes_age _ "tok"
    ⟨"tok", some (1 / 2), some (11 / 20), 0⟩ (27 / 50) 6000 7000
    (by simp) (by norm_num) (by norm_num)

/-- C6: while not paused and with a defined window percentage change, a
signal fires exactly when the absolute change reaches the threshold and the
cooldown since the last fired signal has elapsed, with direction UP for a
positive change and DOWN otherwise, and firing records the signal time; on
the documented scenario (threshold 0.015 percent, cooldown 2000 ms, window
500 ms) a 0.02 percent move fires once, a second qualifying move 200 ms
later fires nothing, and a qualifying move 2300 ms after the first fires
again. -/
theorem check_signal_fires_iff :
    (∀ (f : CoinbaseFeed) (t pc : ℚ), f.paused = false →
        f.window.getPctChange = some pc →
        (f.checkSignal t).2
          = (if f.threshold ≤ |pc| ∧ f.cooldownMs ≤ t - f.lastSignalTime
              then some (if 0 < pc then Direction.up else Direction.down)
              else none)
        ∧ (f.checkSignal t).1.lastSignalTime
          = (if f.threshold ≤ |pc| ∧ f.cooldownMs ≤ t - f.lastSignalTime
              then t else f.lastSignalTime))
    ∧ ((CoinbaseFeed.mk (RollingWindow.mk 500 []) (3 / 20000) 2000 0
          false).runTicks
        [(1000000, 1000000), (1000100, 1000200), (1000300, 1000400),
          (1002200, 1000000), (1002400, 1000200)]).2
      = [none, some Direction.up, none, none, some Direction.up] := by
  constructor
  · intro f t pc hp hpc
    unfold CoinbaseFeed.checkSignal
    rw [hp, hpc]
    simp only [Bool.false_eq_true, if_false]
    by_cases h1 : |pc| < f.threshold
    · rw [if_pos h1]
      have h3 : ¬ (f.threshold ≤ |pc| ∧ f.cooldownMs ≤ t - f.lastSignalTime) :=
        fun hc => absurd hc.1 (not_le.mpr h1)
      simp [h3]
    · rw [if_neg h1]
      by_cases h2 : t - f.lastSignalTime < f.cooldownMs
      · rw [if_pos h2]
        have h3 : ¬ (f.threshold ≤ |pc| ∧ f.cooldownMs ≤ t - f.lastSignalTime) :=
          fun hc => absurd hc.2 (not_le.mpr h2)
        simp [h3]
      · rw [if_neg h2]
        have h3 : f.threshold ≤ |pc| ∧ f.cooldownMs ≤ t - f.lastSignalTime :=
          ⟨not_lt.mp h1, not_lt.mp h2⟩
        simp [h3]
  · norm_num [CoinbaseFeed.runTicks, CoinbaseFeed.handleMatch,
      CoinbaseFeed.checkSignal, RollingWindow.add, RollingWindow.getPctChange,
      List.dropWhile, abs]

/-- Witness for C6: a 1 percent move with the cooldown long elapsed fires an
UP signal. -/
theorem check_signal_fires_iff_witness :
    ((CoinbaseFeed.mk (RollingWindow.mk 500 [(0, 100), (10, 101)]) (3 / 20000)
        2000 0 false).checkSignal 5000).2 = some Direction.up := by
  have h := (check_signal_fires_iff.1
    (CoinbaseFeed.mk (RollingWindow.mk 500 [(0, 100), (10, 101)]) (3 / 20000)
      2000 0 false)
    5000 (1 / 100) rfl (by norm_num [RollingWindow.getPctChange])).1
  rw [h]
  norm_num [abs]

/-- C1: over every interleaving of atomic check-then-set trigger sections
and worker completions, starting from OPEN, at most one compare-and-swap
succeeds, so at most one trigger_exit run is ever started; and a
compare-and-swap that observes a non-OPEN status returns without effect. -/
theorem exit_cas_single_trigger :
    (∀ evs : List ExitEvent,
        (evs.foldl exitCasStep (PositionStatus.Open, 0)).2 ≤ 1)
    ∧ (∀ (s : PositionStatus) (n : ℕ) (r : ExitReason),
        s ≠ PositionStatus.Open →
        exitCasStep (s, n) (ExitEvent.cas r) = (s, n)) := by
  constructor
  · have inv : ∀ (evs : List ExitEvent) (st : PositionStatus × ℕ),
        (st.1 = PositionStatus.Open → st.2 = 0) → st.2 ≤ 1 →
        (evs.foldl exitCasStep st).2 ≤ 1 := by
      intro evs
      induction evs with
      | nil => intro st _ h2; simpa using h2
      | cons e rest ih =>
        intro st h1 h2
        simp only [List.foldl_cons]
        apply ih
        · cases e with
          | cas r =>
            simp only [exitCasStep]
            split_ifs with ho
            · intro hcl
              cases hcl
            · exact h1
          | finish =>
            simp only [exitCasStep]
            intro hcl
            cases hcl
        · cases e with
          | cas r =>
            simp only [exitCasStep]
            split_ifs with ho
            · simp [h1 ho]
            · exact h2
          | finish =>
            simpa [exitCasStep] using h2
    intro evs
    exact inv evs (PositionStatus.Open, 0) (fun _ => rfl) (by norm_num)
  · intro s n r hs
    simp only [exitCasStep]
    rw [if_neg hs]

/-- Witness for C1: a manual exit and a take-profit tick race, then the
worker finishes; one run starts, and a duplicate trigger on a CLOSING
position is a no-op. -/
theorem exit_cas_single_trigger_witness :
    (([ExitEvent.cas ExitReason.manual, ExitEvent.cas ExitReason.takeProfit,
        ExitEvent.finish].foldl exitCasStep (PositionStatus.Open, 0)).2 ≤ 1)
    ∧ exitCasStep (PositionStatus.Closing, 1) (ExitEvent.cas ExitReason.manual)
        = (PositionStatus.Closing, 1) :=
  ⟨exit_cas_single_trigger.1 _,
    exit_cas_single_trigger.2 PositionStatus.Closing 1 ExitReason.manual
      (by decide)⟩

/-- The exit sell loop never exceeds its fuel in attempts, and on exit
either the remainder is at or below the 0.01 dust floor, or the attempt
budget is exhausted, or the consecutive-failure cap was hit. -/
theorem exitSellLoop_bounds (oracle : ℕ → SellResponse) (maxConsec : ℕ) :
    ∀ (fuel attempts cf : ℕ) (remaining totalFilled : ℚ)
      (fills : List (ℚ × ℚ)), cf ≤ maxConsec →
      (exitSellLoop oracle maxConsec fuel attempts cf remaining totalFilled
          fills).attempts ≤ attempts + fuel
      ∧ ((exitSellLoop oracle maxConsec fuel attempts cf remaining totalFilled
            fills).remaining ≤ 1 / 100
        ∨ (exitSellLoop oracle maxConsec fuel attempts cf remaining totalFilled
            fills).attempts = attempts + fuel
        ∨ (exitSellLoop oracle maxConsec fuel attempts cf remaining totalFilled
            fills).consecutiveFailures = maxConsec) := by
  intro fuel
  induction fuel with
  | zero =>
    intro attempts cf remaining tf fills hcf
    constructor
    · simp [exitSellLoop]
    · exact Or.inr (Or.inl (by simp [exitSellLoop]))
  | succ k ih =>
    intro attempts cf remaining tf fills hcf
    have step : ∀ (cf2 : ℕ) (r2 t2 : ℚ) (f2 : List (ℚ × ℚ)),
        cf2 ≤ maxConsec →
        (exitSellLoop oracle maxConsec k (attempts + 1) cf2 r2 t2 f2).attempts
            ≤ attempts + (k + 1)
        ∧ ((exitSellLoop oracle maxConsec k (attempts + 1) cf2 r2 t2
              f2).remaining ≤ 1 / 100
          ∨ (exitSellLoop oracle maxConsec k (attempts + 1) cf2 r2 t2
              f2).attempts = attempts + (k + 1)
          ∨ (exitSellLoop oracle maxConsec k (attempts + 1) cf2 r2 t2
              f2).consecutiveFailures = maxConsec) := by
      intro cf2 r2 t2 f2 hcf2
      obtain ⟨ha, hd⟩ := ih (attempts + 1) cf2 r2 t2 f2 hcf2
      refine ⟨by omega, ?_⟩
      rcases hd with hx | hx | hx
      · exact Or.inl hx
      · exact Or.inr (Or.inl (by omega))
      · exact Or.inr (Or.inr hx)
    simp only [exitSellLoop]
    split_ifs with hgo hb hsucc hfill
    · exact step (cf + 1) _ _ _ (Nat.succ_le_of_lt hgo.2)
    · exact step 0 _ _ _ (Nat.zero_le _)
    · exact step (cf + 1) _ _ _ (Nat.succ_le_of_lt hgo.2)
    · exact step (cf + 1) _ _ _ (Nat.succ_le_of_lt hgo.2)
    · refine ⟨Nat.le_add_right _ _, ?_⟩
      rcases not_and_or.mp hgo with hr | hc
      · exact Or.inl (not_lt.mp hr)
      · exact Or.inr (Or.inr (le_antisymm hcf (not_lt.mp hc)))

/-- The accumulated filled total equals the sum of the recorded fill
quantities, provided it does on entry. -/
theorem exitSellLoop_totalFilled (oracle : ℕ → SellResponse) (maxConsec : ℕ) :
    ∀ (fuel attempts cf : ℕ) (remaining totalFilled : ℚ)
      (fills : List (ℚ × ℚ)),
      totalFilled = (fills.map Prod.fst).sum →
      (exitSellLoop oracle maxConsec fuel attempts cf remaining totalFilled
          fills).totalFilled
        = ((exitSellLoop oracle maxConsec fuel attempts cf remaining
            totalFilled fills).fillPrices.map Prod.fst).sum := by
  intro fuel
  induction fuel with
  | zero =>
    intro attempts cf remaining tf fills h
    exact h
  | succ k ih =>
    intro attempts cf remaining tf fills h
    simp only [exitSellLoop]
    split_ifs with hgo hb hsucc hfill
    · exact ih _ _ _ _ _ h
    · exact ih _ _ _ _ _ (by simp [h])
    · exact ih _ _ _ _ _ h
    · exact ih _ _ _ _ _ h
    · exact h

/-- C2: trigger_exit terminates within the stated bounds for every
order-client behaviour: phase 1 makes at most 20 attempts and stops at the
dust floor, attempt exhaustion, or 5 consecutive failures; phase 2 runs
exactly when more than 0.01 shares remain and their value at the fetched
best bid is at least 0.05 dollars, makes at most 15 attempts and stops at
the dust floor, attempt exhaustion, or 10 consecutive failures; the
good-till-cancelled fallback is placed exactly when shares above the dust
floor remain and a positive best bid exists, for the remainder at that best
bid; and the position always ends CLOSED. -/
theorem trigger_exit_bounded (env : ExitEnv) (pos : Position)
    (reason : ExitReason) (now : ℚ) (cb : Bool)
    (h : pos.status ≠ PositionStatus.Closed) :
    (triggerExit env pos reason now cb).2.phase1 = some (triggerPhase1 env pos)
    ∧ (triggerPhase1 env pos).attempts ≤ 20
    ∧ ((triggerPhase1 env pos).remaining ≤ 1 / 100
        ∨ (triggerPhase1 env pos).attempts = 20
        ∨ (triggerPhase1 env pos).consecutiveFailures = 5)
    ∧ (triggerExit env pos reason now cb).2.phase2 = triggerPhase2 env pos
    ∧ ((triggerPhase2 env pos).isSome = true
        ↔ 1 / 100 < (triggerPhase1 env pos).remaining
          ∧ 5 / 100 ≤ (triggerPhase1 env pos).remaining * triggerBestBid env)
    ∧ (∀ o2, triggerPhase2 env pos = some o2 →
        o2.attempts ≤ 15
        ∧ (o2.remaining ≤ 1 / 100 ∨ o2.attempts = 15
            ∨ o2.consecutiveFailures = 10))
    ∧ (triggerExit env pos reason now cb).2.gtcPlaced = triggerGtc env pos
    ∧ ((triggerGtc env pos).isSome = true
        ↔ 1 / 100 < (triggerPhase1 env pos).remaining
          ∧ 1 / 100 < (triggerFin env pos).remaining
          ∧ 0 < triggerBestBid env)
    ∧ (∀ r b, triggerGtc env pos = some (r, b) →
        r = (triggerFin env pos).remaining ∧ b = triggerBestBid env)
    ∧ (triggerExit env pos reason now cb).1.status = PositionStatus.Closed := by
  refine ⟨?_, ?_, ?_, ?_, ?_, ?_, ?_, ?_, ?_, ?_⟩
  · simp [triggerExit, h]
  · simpa using
      (exitSellLoop_bounds env.phase1 5 20 0 0 pos.shares 0 [] (by omega)).1
  · simpa using
      (exitSellLoop_bounds env.phase1 5 20 0 0 pos.shares 0 [] (by omega)).2
  · simp [triggerExit, h]
  · unfold triggerPhase2
    split_ifs with hc
    · simp only [Option.isSome_some]
      exact iff_of_true trivial hc
    · simp only [Option.isSome_none]
      exact iff_of_false (by simp) hc
  · intro o2 h2
    unfold triggerPhase2 at h2
    split_ifs at h2 with hc
    obtain rfl := Option.some.inj h2
    have hb := exitSellLoop_bounds env.phase2 10 15 0 0
      (triggerPhase1 env pos).remaining (triggerPhase1 env pos).totalFilled
      (triggerPhase1 env pos).fillPrices (by omega)
    exact ⟨by simpa using hb.1, by simpa using hb.2⟩
  · simp [triggerExit, h]
  · unfold triggerGtc
    split_ifs with hc
    · simp only [Option.isSome_some]
      exact iff_of_true trivial hc
    · simp only [Option.isSome_none]
      exact iff_of_false (by simp) hc
  · intro r b hrb
    unfold triggerGtc at hrb
    split_ifs at hrb with hc
    obtain ⟨h1, h2⟩ := Prod.mk.inj (Option.some.inj hrb)
    exact ⟨h1.symm, h2.symm⟩
  · simp [triggerExit, h, triggerFinalPos]

/-- The order client that never returns a bid, and a sample open position,
used to witness the exit-loop claims. -/
def failEnv : ExitEnv :=
  ⟨fun _ => ⟨none, false, 0, none⟩, none, fun _ => ⟨none, false, 0, none⟩,
    none, true⟩

/-- A sample OPEN position with 20 shares bought at 0.50. -/
def samplePosition : Position :=
  ⟨"p0", "UP", "tok", 1 / 2, 20, 0, 53 / 100, 44 / 100, PositionStatus.Open,
    none, none, none, none, false, none⟩

/-- Witness for C2 on a position whose order client never quotes a bid. -/
theorem trigger_exit_bounded_witness :
    (triggerPhase1 failEnv samplePosition).attempts ≤ 20
    ∧ (triggerExit failEnv samplePosition ExitReason.takeProfit 0 true).1.status
        = PositionStatus.Closed := by
  have h := trigger_exit_bounded failEnv samplePosition ExitReason.takeProfit
    0 true (by decide)
  exact ⟨h.2.1, h.2.2.2.2.2.2.2.2.2⟩

/-- C9 amended: when trigger_exit runs on a non-CLOSED position, the final
exit price is the fill-weighted average over all recorded fills whenever the
filled total is positive, and then the share count is rewritten to that
total; with zero filled the exit price is the best bid or zero and the
shares are left unchanged (the source rewrites shares only inside the
positive-fill branch, refuting the unconditional rewrite in the claim); the
filled total is the sum of the recorded fill quantities; the position ends
CLOSED with exit time and reason stamped; and the completion callback is
invoked exactly once with the final position and the reason. -/
theorem trigger_exit_finalization (env : ExitEnv) (pos : Position)
    (reason : ExitReason) (now : ℚ)
    (h : pos.status ≠ PositionStatus.Closed) :
    (0 < (triggerFin env pos).totalFilled →
        (triggerExit env pos reason now true).1.exitPrice
          = some (((triggerFin env pos).fillPrices.foldl
              (fun a qp => a + qp.1 * qp.2) 0) / (triggerFin env pos).totalFilled)
        ∧ (triggerExit env pos reason now true).1.shares
            = (triggerFin env pos).totalFilled)
    ∧ (¬ 0 < (triggerFin env pos).totalFilled →
        (triggerExit env pos reason now true).1.exitPrice
            = some (env.finalBid.getD 0)
        ∧ (triggerExit env pos reason now true).1.shares = pos.shares)
    ∧ (triggerFin env pos).totalFilled
        = ((triggerFin env pos).fillPrices.map Prod.fst).sum
    ∧ (triggerExit env pos reason now true).1.status = PositionStatus.Closed
    ∧ (triggerExit env pos reason now true).1.exitTime = some now
    ∧ (triggerExit env pos reason now true).1.exitReason = some reason
    ∧ (triggerExit env pos reason now true).2.callbackCalls
        = [((triggerExit env pos reason now true).1, reason)] := by
  refine ⟨?_, ?_, ?_, ?_, ?_, ?_, ?_⟩
  · intro hf
    constructor
    · simp [triggerExit, h, triggerFinalPos, triggerExitPrice, hf]
    · simp [triggerExit, h, triggerFinalPos, triggerShares, hf]
  · intro hf
    constructor
    · simp [triggerExit, h, triggerFinalPos, triggerExitPrice, hf]
    · simp [triggerExit, h, triggerFinalPos, triggerShares, hf]
  · unfold triggerFin
    cases h2 : triggerPhase2 env pos with
    | none =>
      simp only [Option.getD_none]
      exact exitSellLoop_totalFilled env.phase1 5 20 0 0 pos.shares 0 []
        (by simp)
    | some o2 =>
      simp only [Option.getD_some]
      unfold triggerPhase2 at h2
      split_ifs at h2 with hc
      obtain rfl := Option.some.inj h2
      exact exitSellLoop_totalFilled env.phase2 10 15 0 0
        (triggerPhase1 env pos).remaining (triggerPhase1 env pos).totalFilled
        (triggerPhase1 env pos).fillPrices
        (exitSellLoop_totalFilled env.phase1 5 20 0 0 pos.shares 0 [] (by simp))
  · simp [triggerExit, h, triggerFinalPos]
  · simp [triggerExit, h, triggerFinalPos]
  · simp [triggerExit, h, triggerFinalPos]
  · simp [triggerExit, h]

/-- An order client that never quotes a bid produces no fills: the loop
leaves the filled total and the remainder unchanged. -/
theorem exitSellLoop_no_bid (oracle : ℕ → SellResponse) (maxConsec : ℕ)
    (hor : ∀ i, (oracle i).bestBid = none) :
    ∀ (fuel attempts cf : ℕ) (remaining tf : ℚ) (fills : List (ℚ × ℚ)),
      (exitSellLoop oracle maxConsec fuel attempts cf remaining tf
          fills).totalFilled = tf
      ∧ (exitSellLoop oracle maxConsec fuel attempts cf remaining tf
          fills).remaining = remaining := by
  intro fuel
  induction fuel with
  | zero => intro attempts cf r tf fills; exact ⟨rfl, rfl⟩
  | succ k ih =>
    intro attempts cf r tf fills
    simp only [exitSellLoop, hor, Option.getD_none]
    split_ifs with hgo hb hsucc hfill
    · exact ih _ _ _ _ _
    · exact absurd (le_refl (0 : ℚ)) hb
    · exact absurd (le_refl (0 : ℚ)) hb
    · exact absurd (le_refl (0 : ℚ)) hb
    · exact ⟨rfl, rfl⟩

/-- C9 as stated is false at a concrete input: on a run in which no shares
fill (the order client never quotes a bid), the total filled quantity is
zero but the shares field keeps its original value 20 instead of being
rewritten to the filled total. -/
theorem trigger_exit_zero_fill_shares_counterexample :
    (triggerExit failEnv samplePosition ExitReason.manual 0 true).1.shares = 20
    ∧ (triggerFin failEnv samplePosition).totalFilled = 0
    ∧ (triggerExit failEnv samplePosition ExitReason.manual 0 true).1.shares
        ≠ (triggerFin failEnv samplePosition).totalFilled := by
  have h1 := exitSellLoop_no_bid failEnv.phase1 5 (fun _ => rfl) 20 0 0
    samplePosition.shares 0 []
  have htf : (triggerPhase1 failEnv samplePosition).totalFilled = 0 := h1.1
  have hrem : (triggerPhase1 failEnv samplePosition).remaining = 20 := by
    have h2 := h1.2
    rw [show samplePosition.shares = (20 : ℚ) from rfl] at h2
    exact h2
  have hp2 : triggerPhase2 failEnv samplePosition = none := by
    unfold triggerPhase2
    apply if_neg
    rintro ⟨_, hc⟩
    rw [hrem, show triggerBestBid failEnv = 0 from rfl] at hc
    norm_num at hc
  have hfin : triggerFin failEnv samplePosition
      = triggerPhase1 failEnv samplePosition := by
    unfold triggerFin
    rw [hp2]
    rfl
  have htf2 : (triggerFin failEnv samplePosition).totalFilled = 0 := by
    rw [hfin]
    exact htf
  have hshares : (triggerExit failEnv samplePosition ExitReason.manual 0
      true).1.shares = 20 := by
    have h0 : (triggerExit failEnv samplePosition ExitReason.manual 0
        true).1.shares = triggerShares failEnv samplePosition := by
      rw [triggerExit, if_neg (by decide)]
      exact rfl
    rw [h0]
    unfold triggerShares
    rw [if_neg (by rw [htf2]; norm_num)]
    rfl
  exact ⟨hshares, htf2, by rw [hshares, htf2]; norm_num⟩

/-- Witness for C9 on the sample position with the no-bid order client. -/
theorem trigger_exit_finalization_witness :
    (triggerExit failEnv samplePosition ExitReason.manual 0 true).1.exitReason
      = some ExitReason.manual
    ∧ (triggerExit failEnv samplePosition ExitReason.manual 0 true).2.callbackCalls
      = [((triggerExit failEnv samplePosition ExitReason.manual 0 true).1,
          ExitReason.manual)] := by
  have h := trigger_exit_finalization failEnv samplePosition ExitReason.manual
    0 (by decide)
  exact ⟨h.2.2.2.2.2.1, h.2.2.2.2.2.2⟩

end Lab
